import Mathlib

/-!
Verification development for the slot-window generation and reconciliation
engine of the scheduling API (slot-windows util and SlotService).

Modelling conventions (shallow embedding of the TypeScript source):
* Instants are integers counting minutes since the Unix epoch (UTC).  All
  instants produced or compared by the engine are minute-aligned, so the
  sub-minute precision of real ISO strings carries no information here.
* A timezone is a fixed offset in minutes (the engine's zones are treated as
  DST-free fixed offsets; local wall-clock time of instant i is i + off).
* An ISO-8601 timestamp string is modelled by TSString: the instant it
  denotes plus its two serialization degrees of freedom that the source
  manipulates (presence of the ".SSS" millisecond block, and "Z" versus
  "+00:00" offset notation).  Two TSStrings are the same string iff all
  fields agree.
* Slot/row identifiers: real persisted ids are natural numbers; the
  synthetic ids of the form "virtual-" ++ iso are SlotRef.virt of the
  instant string, so startsWith("virtual-") becomes SlotRef.isVirt.
* Database reads/writes are modelled by explicit state passing over a Store
  (the rows of the one professional in scope; professional_id is constant
  across every query in the modelled code paths and is dropped).
* Timestamp-typed comparisons performed by the database (gte / lte / in on
  the start_time column) compare the denoted instants, not the raw strings.
-/

/-- Local calendar day (in the fixed-offset zone off) of UTC instant i:
floor division of local wall-clock minutes by 1440. -/
def localDay (off i : Int) : Int := (i + off).fdiv 1440

/-- UTC instant of local midnight on instant i's local calendar day
(luxon startOf day). -/
def localDayStart (off i : Int) : Int := localDay off i * 1440 - off

/-- Minutes since local midnight of instant i (luxon hour * 60 + minute). -/
def localMins (off i : Int) : Int := (i + off).emod 1440

/-- luxon hasSame(other, day): both instants fall on the same local
calendar day of the zone. -/
def sameLocalDay (off a b : Int) : Bool := localDay off a == localDay off b

/-- luxon weekday: 1 = Monday .. 7 = Sunday, for a local calendar day number
(day 0 = 1970-01-01, a Thursday). -/
def luxonWeekday (day : Int) : Int := (day + 3).emod 7 + 1

/-- An ISO timestamp string: denoted instant (minutes, UTC) plus the two
format flags the source code distinguishes (millisecond block present;
Z suffix as opposed to +00:00). -/
structure TSString where
  inst : Int
  msDigits : Bool
  zSuffix : Bool
  deriving DecidableEq, Repr

/-- The canonical serialization of an instant: what luxon
DateTime.toUTC().toISO() prints (with milliseconds, Z suffix). -/
def canonTS (i : Int) : TSString := ⟨i, true, true⟩

/-- DateTime.fromISO(s, zone utc).toUTC().toISO(): parse any accepted form
and reprint canonically.  Parsing never fails on the modelled forms, so the
lenient catch branches of the source are dead here. -/
def normalizeTS (t : TSString) : TSString := canonTS t.inst

/-- A slot identifier: a real persisted row id, or the synthetic
"virtual-" ++ iso id derived from a start instant. -/
inductive SlotRef where
  | real (n : Nat)
  | virt (t : TSString)
  deriving DecidableEq, Repr

/-- s.startsWith("virtual-") on an id string. -/
def SlotRef.isVirt : SlotRef → Bool
  | .virt _ => true
  | .real _ => false

/-- A local wall-clock HH:mm value (from strings split(':').map(Number)). -/
structure HM where
  h : Nat
  m : Nat
  deriving DecidableEq, Repr

/-- Total minutes of an HH:mm value. -/
def HM.mins (t : HM) : Int := (t.h : Int) * 60 + t.m

/-! ## Window builder from base slots (slot-windows util) -/

/-- BaseSlot of the slot-windows util.  start_time / end_time are the
denoted UTC instants of the row's ISO strings (only instants are consumed
by the builder); professional_id is dropped (unused). -/
structure BaseSlot where
  id : SlotRef
  start_time : Int
  end_time : Int
  is_available : Bool
  deriving DecidableEq, Repr

/-- The Window record emitted by both algorithms: UTC ISO start/end plus
the ordered covered slot ids. -/
structure Window where
  start_time : TSString
  end_time : TSString
  slot_ids : List SlotRef
  deriving DecidableEq, Repr

/-- Parameters of buildServiceWindowsFromBaseSlots.  now is the denoted
instant of the now ISO string; timezone is the fixed offset off;
closingTime is the parsed HH:mm pair; minLeadMinutes defaults to 0 at the
call boundary so it is a plain Nat here. -/
structure BuildParams where
  baseSlots : List BaseSlot
  durationMinutes : Nat
  slotStepMinutes : Nat
  now : Int
  closingTime : HM
  off : Int
  minLeadMinutes : Nat
  deriving Repr

/-- Stable insertion into a list sorted (non-strictly) ascending by
start_time: x goes before the first element whose start is not smaller,
i.e. after nothing equal inserted earlier via foldr (see sortByStart). -/
def insertByStart (x : BaseSlot) : List BaseSlot → List BaseSlot
  | [] => [x]
  | y :: ys => if y.start_time < x.start_time then y :: insertByStart x ys else x :: y :: ys

/-- Line 29: [...baseSlots].sort((a, b) => Date(a.start) - Date(b.start)).
Array.prototype.sort with this comparator is the stable ascending sort by
denoted start instant; a stable sort by a total key is unique, and this
structurally-recursive stable insertion sort computes it. -/
def sortByStart (l : List BaseSlot) : List BaseSlot := l.foldr insertByStart []

/-- Lines 107-141: the builder's lead-time acceptance decision for a
candidate start, given nowWithLead = now + minLead.  Same local day:
round nowWithLead up to the next multiple of slotStepMinutes since local
midnight and require windowStart to be at or after that; different day:
accept unless windowStart is in the past. -/
def builderLeadAccept (off : Int) (step : Nat) (nowWithLead windowStart : Int) : Bool :=
  if sameLocalDay off windowStart nowWithLead then
    let nowTotalMins : Nat := (localMins off nowWithLead).toNat
    let rounded : Int := ((nowTotalMins + step - 1) / step * step : Nat)
    let roundedDt : Int := localDayStart off nowWithLead + rounded
    decide (roundedDt ≤ windowStart)
  else
    decide (nowWithLead ≤ windowStart)

/-- Lines 76-92: consecutive check; each covered slot must start exactly
slotStepMinutes after the previous one (instant difference; converting
both ends to the target zone leaves the difference unchanged). -/
def consecutiveOk (step : Nat) : List BaseSlot → Bool
  | [] => true
  | [_] => true
  | a :: b :: rest =>
    (b.start_time - a.start_time == (step : Int)) && consecutiveOk step (b :: rest)

/-- One iteration of the positional sliding-window loop (lines 53-164) at
position i over the sorted slot list; returns the accepted window, if any.
In the source a group shorter than 1 would fault at group[0]; that point
is unreachable for needed ≥ 1 (the regime of every theorem below), and the
model emits nothing there. -/
def windowAt (P : BuildParams) (slots : List BaseSlot) (needed : Nat) (i : Nat) :
    Option Window :=
  let group := (slots.drop i).take needed
  if group.any (fun s => !s.is_available) then none
  else if !consecutiveOk P.slotStepMinutes group then none
  else
    match group.head? with
    | none => none
    | some g0 =>
      let windowStart := g0.start_time
      let windowEnd := windowStart + (P.durationMinutes : Int)
      let nowWithLead := P.now + (P.minLeadMinutes : Int)
      if !builderLeadAccept P.off P.slotStepMinutes nowWithLead windowStart then none
      else
        let closeDt := localDayStart P.off windowStart + P.closingTime.mins
        if closeDt < windowEnd then none
        else some ⟨canonTS windowStart, canonTS windowEnd, group.map (fun s => s.id)⟩

/-- buildServiceWindowsFromBaseSlots (slot-windows util, lines 27-175).
needed = ceil(duration / step); the loop runs i = 0 .. slots.length - needed.
With step = 0 the source computes needed = Infinity and the loop body never
runs, hence the leading guard. -/
def buildServiceWindowsFromBaseSlots (P : BuildParams) : List Window :=
  if P.slotStepMinutes = 0 then []
  else
    let slots := sortByStart P.baseSlots
    let needed := (P.durationMinutes + P.slotStepMinutes - 1) / P.slotStepMinutes
    if slots.length = 0 then []
    else (List.range (slots.length + 1 - needed)).filterMap (windowAt P slots needed)

/-! ## Direct availability window generator (SlotService) -/

/-- AvailabilityRule row: recurring weekly block.  day_of_week is the
0 = Sunday .. 6 = Saturday integer; start/end are local HH:mm. -/
structure Availability where
  day_of_week : Int
  start_time : HM
  end_time : HM
  deriving DecidableEq, Repr

/-- Parameters of generateServiceSlotsDirectly: service duration, request
range (denoted instants of the from/to ISO strings), fixed timezone offset,
closing HH:mm, the occupied start-time string set, minimum lead minutes,
and now (the source samples DateTime.now() here; the model passes the
sampled instant explicitly). -/
structure GenParams where
  duration : Nat
  fromT : Int
  toT : Int
  off : Int
  closing : HM
  occupied : List TSString
  minLead : Nat
  now : Int
  deriving Repr

/-- Lines 310-320: the generator's lead-time acceptance decision.  Same
local day as nowWithLead: accept iff slotStart is not before it; different
day: accept iff strictly after. -/
def generatorLeadAccept (off : Int) (nowWithLead slotStart : Int) : Bool :=
  if sameLocalDay off slotStart nowWithLead then decide (nowWithLead ≤ slotStart)
  else decide (nowWithLead < slotStart)

/-- Lines 297-341: the per-day while loop; slotStart advances by the full
service duration, stops at dayEnd, breaks when a slot would end past the
day's closing cutoff.  The fuel argument bounds the iteration count; the
call below supplies enough fuel for every terminating source run
(duration ≥ 1). -/
def genSlotsLoop (p : GenParams) (dayEnd dayClosing : Int) :
    Nat → Int → List Window
  | 0, _ => []
  | fuel + 1, slotStart =>
    if slotStart < dayEnd then
      let slotEnd := slotStart + (p.duration : Int)
      if dayClosing < slotEnd then []
      else
        let keep :=
          decide (p.fromT ≤ slotStart) && decide (slotStart ≤ p.toT) &&
          generatorLeadAccept p.off (p.now + (p.minLead : Int)) slotStart &&
          !(p.occupied.contains (canonTS slotStart))
        (if keep then
            [⟨canonTS slotStart, canonTS slotEnd, [SlotRef.virt (canonTS slotStart)]⟩]
          else []) ++
          genSlotsLoop p dayEnd dayClosing fuel slotEnd
    else []

/-- The inclusive local-day sweep from from's local day to to's local day
(lines 276-279 and 344). -/
def dayRange (startDay endDay : Int) : List Int :=
  if endDay < startDay then []
  else (List.range ((endDay - startDay).toNat + 1)).map (fun k => startDay + k)

/-- Lines 280-294: weekday translation and availability rule selection for
one local day, then the day's window loop. -/
def genForDay (avails : List Availability) (p : GenParams) (day : Int) : List Window :=
  let luxonWd := luxonWeekday day
  let dayOfWeek : Int := if luxonWd == 7 then 0 else luxonWd
  match avails.find? (fun av => av.day_of_week == dayOfWeek) with
  | none => []
  | some av =>
    let dayStart := day * 1440 + av.start_time.mins - p.off
    let dayEnd := day * 1440 + av.end_time.mins - p.off
    let dayClosing := day * 1440 + p.closing.mins - p.off
    genSlotsLoop p dayEnd dayClosing ((dayEnd - dayStart).toNat + 1) dayStart

/-- generateServiceSlotsDirectly (SlotService, lines 245-348). -/
def generateServiceSlotsDirectly (avails : List Availability) (p : GenParams) :
    List Window :=
  if avails.isEmpty then []
  else
    (dayRange (localDay p.off p.fromT) (localDay p.off p.toT)).flatMap
      (genForDay avails p)

/-! ## Persisted slots, store and the occupancy set -/

/-- A persisted slot row.  professional_id is dropped (constant in scope);
start/end keep the stored serialization so that format drift between
stored and generated strings is observable. -/
structure PSlot where
  id : Nat
  service_id : Option Nat
  start_time : TSString
  end_time : TSString
  is_available : Bool
  deriving DecidableEq, Repr

/-- The professional's slot table plus the id sequence of the store. -/
structure Store where
  rows : List PSlot
  nextId : Nat
  deriving DecidableEq, Repr

/-- Lines 422-432 of getServiceWindows: the occupied start-time set is the
raw stored start_time strings of is_available = false rows in range. -/
def occupiedStartTimes (s : Store) (fromT toT : Int) : List TSString :=
  (s.rows.filter (fun r =>
    !r.is_available && decide (fromT ≤ r.start_time.inst) &&
      decide (r.start_time.inst ≤ toT))).map (fun r => r.start_time)

/-! ## getAvailableSlots and its availability-generation fallback -/

/-- A slot as returned by getAvailableSlots: its id may be a real row id or
a synthetic virtual id. -/
structure VSlot where
  id : SlotRef
  service_id : Option Nat
  start_time : TSString
  end_time : TSString
  is_available : Bool
  deriving DecidableEq, Repr

/-- Parameters of getAvailableSlots (professional/company dropped: the
ownership check is outside the modelled computation). -/
structure GetSlotsParams where
  service_id : Option Nat
  fromT : Int
  toT : Int
  deriving Repr

/-- The fixed defaults of generateSlotsFromAvailabilities (lines 104, 131):
slot step 15 minutes, timezone America/Sao_Paulo as its fixed UTC-3 offset. -/
def saoPauloOffset : Int := -180

/-- Lines 185-214: the fallback's per-day 15-minute loop; every generated
slot spans exactly 15 minutes, is marked available, carries the virtual id
of its UTC start ISO string, and is kept only when its UTC start lies
within the requested range. -/
def genAvailLoop (p : GetSlotsParams) (dayEnd : Int) : Nat → Int → List VSlot
  | 0, _ => []
  | fuel + 1, slotStart =>
    if slotStart < dayEnd then
      let slotEnd := slotStart + 15
      (if decide (p.fromT ≤ slotStart) && decide (slotStart ≤ p.toT) then
          [⟨SlotRef.virt (canonTS slotStart), p.service_id,
            canonTS slotStart, canonTS slotEnd, true⟩]
        else []) ++
        genAvailLoop p dayEnd fuel slotEnd
    else []

/-- Lines 149-230: one local day of the fallback generation. -/
def genAvailDay (avails : List Availability) (p : GetSlotsParams) (day : Int) :
    List VSlot :=
  let luxonWd := luxonWeekday day
  let dayOfWeek : Int := if luxonWd == 7 then 0 else luxonWd
  match avails.find? (fun av => av.day_of_week == dayOfWeek) with
  | none => []
  | some av =>
    let dayStart := day * 1440 + av.start_time.mins - saoPauloOffset
    let dayEnd := day * 1440 + av.end_time.mins - saoPauloOffset
    genAvailLoop p dayEnd ((dayEnd - dayStart).toNat + 1) dayStart

/-- generateSlotsFromAvailabilities (SlotService, lines 103-243). -/
def generateSlotsFromAvailabilities (avails : List Availability)
    (p : GetSlotsParams) : List VSlot :=
  if avails.isEmpty then []
  else
    (dayRange (localDay saoPauloOffset p.fromT) (localDay saoPauloOffset p.toT)).flatMap
      (genAvailDay avails p)

/-- Stable ascending insertion by denoted start instant for persisted rows
(order("start_time", ascending) of the slots query). -/
def insertPSlotByStart (x : PSlot) : List PSlot → List PSlot
  | [] => [x]
  | y :: ys =>
    if y.start_time.inst < x.start_time.inst then y :: insertPSlotByStart x ys
    else x :: y :: ys

/-- The store's ascending ordering of query results by start_time. -/
def sortPSlotsByStart (l : List PSlot) : List PSlot := l.foldr insertPSlotByStart []

/-- getAvailableSlots (SlotService, lines 43-101): return the persisted
available slots in range when any exist (service-specific or
service-agnostic when a service filter is given), else fall back to
availability-based generation of virtual slots. -/
def availableSlotsQuery (s : Store) (p : GetSlotsParams) : List VSlot :=
  (sortPSlotsByStart (s.rows.filter (fun r =>
      r.is_available && decide (p.fromT ≤ r.start_time.inst) &&
      decide (r.start_time.inst ≤ p.toT) &&
      (match p.service_id with
       | some sid => r.service_id == some sid || r.service_id == none
       | none => true)))).map
    (fun r => (⟨SlotRef.real r.id, r.service_id, r.start_time, r.end_time,
      r.is_available⟩ : VSlot))

def getAvailableSlots (s : Store) (avails : List Availability)
    (p : GetSlotsParams) : List VSlot :=
  let data := availableSlotsQuery s p
  if data.length > 0 then data
  else generateSlotsFromAvailabilities avails p

/-! ## Reconciliation / materialization (getServiceWindows, lines 439-710) -/

/-- A JS Map from timestamp-string keys to slot ids, modelled get-equivalently
as a prepend list: Map.set k v makes k resolve to v from then on, which the
prepended binding realizes (first match below = latest set). -/
abbrev JMap := List (TSString × Nat)

/-- Map.set. -/
def jset (m : JMap) (k : TSString) (v : Nat) : JMap := (k, v) :: m

/-- Map.get (undefined becomes none). -/
def jget (m : JMap) (k : TSString) : Option Nat :=
  (m.find? (fun e => e.1 == k)).map (fun e => e.2)

/-- s.replace of a trailing ".SSSZ" by "Z": drops the millisecond block when
the string carries both milliseconds and the Z suffix, else no match. -/
def stripMsZ (t : TSString) : TSString :=
  if t.msDigits && t.zSuffix then ⟨t.inst, false, t.zSuffix⟩ else t

/-- s.replace of "Z" by "+00:00" (Z only ever occurs as the suffix). -/
def zToOffset (t : TSString) : TSString :=
  if t.zSuffix then ⟨t.inst, t.msDigits, false⟩ else t

/-- s.replace of a trailing ".SSSZ" by "+00:00". -/
def stripMsZToOffset (t : TSString) : TSString :=
  if t.msDigits && t.zSuffix then ⟨t.inst, false, false⟩ else t

/-- Lines 452-475: register one available row in the real-id lookup map
under its normalized key, the normalized key without milliseconds (when
that differs), and the raw stored string. -/
def addRealKeys (m : JMap) (r : PSlot) : JMap :=
  let normalizedTime := normalizeTS r.start_time
  let m1 := jset m normalizedTime r.id
  let withoutMs := stripMsZ normalizedTime
  let m2 := if withoutMs ≠ normalizedTime then jset m1 withoutMs r.id else m1
  jset m2 r.start_time r.id

/-- The realSlotIds map over the available rows fetched for the range. -/
def buildRealSlotIds (rows : List PSlot) : JMap := rows.foldl addRealKeys []

/-- Lines 510-545: probe the map with the normalized generated start, then
without milliseconds, then with +00:00 in place of Z, then with both
variations, then with the raw generated string. -/
def lookupRealId (m : JMap) (t : TSString) : Option Nat :=
  let norm := normalizeTS t
  match jget m norm with
  | some i => some i
  | none =>
    match jget m (stripMsZ norm) with
    | some i => some i
    | none =>
      match jget m (zToOffset norm) with
      | some i => some i
      | none =>
        match jget m (stripMsZToOffset norm) with
        | some i => some i
        | none => jget m t

/-- Lines 510-565: a window whose start resolves in the real-id map gets
that id as its single slot id; otherwise it is returned unchanged. -/
def resolveWindow (m : JMap) (w : Window) : Window :=
  match lookupRealId m w.start_time with
  | some i => { w with slot_ids := [SlotRef.real i] }
  | none => w

/-- Lines 568-570: w.slot_ids.length > 0 and w.slot_ids[0] starts with
"virtual-". -/
def isVirtualWindow (w : Window) : Bool :=
  match w.slot_ids with
  | x :: _ => x.isVirt
  | [] => false

/-- Lines 597-607 (and 643-649): register a row under its normalized key
and its raw stored key. -/
def addExistKeys (m : JMap) (r : PSlot) : JMap :=
  jset (jset m (normalizeTS r.start_time) r.id) r.start_time r.id

/-- A row of the batch insert payload (professional_id, service_id and
is_available = true are constants supplied at insert). -/
structure SlotInsert where
  start_time : TSString
  end_time : TSString
  deriving DecidableEq, Repr

/-- The row the store creates for one insert payload entry. -/
def mkInsertRow (sid : Option Nat) (nid : Nat) (c : SlotInsert) : PSlot :=
  ⟨nid, sid, c.start_time, c.end_time, true⟩

/-- Result of the reconciliation step: the store after materialization, the
final windows, and whether the insert failure was logged (the error is
swallowed; it never escapes to the caller). -/
structure ReconcileResult where
  store : Store
  windows : List Window
  insertErrorLogged : Bool
  deriving DecidableEq, Repr

/-- Lines 567-675: materialization.  Windows still virtual after real-id
mapping are looked up once more among all rows sharing their start instant
(any availability, no range filter); only genuinely absent starts are batch
inserted; on insert failure the error is logged and swallowed; finally every
still-virtual window is rewritten from the merged existing-plus-created map. -/
def materialize (s : Store) (sid : Option Nat) (insertFails : Bool)
    (ws1 : List Window) : ReconcileResult :=
  let virtualSlots := ws1.filter isVirtualWindow
  if virtualSlots.length = 0 then ⟨s, ws1, false⟩
  else
    let slotsToCreate : List SlotInsert :=
      virtualSlots.map (fun w => ⟨w.start_time, w.end_time⟩)
    let startTimes := virtualSlots.map (fun w => w.start_time)
    let existingSlots := s.rows.filter (fun r =>
      startTimes.any (fun t => t.inst == r.start_time.inst))
    let existingSlotIds := existingSlots.foldl addExistKeys []
    let slotsToInsert := slotsToCreate.filter (fun c =>
      (jget existingSlotIds (normalizeTS c.start_time)).isNone)
    let ins :=
      if slotsToInsert.length ≠ 0 then
        if insertFails then (s.rows, s.nextId, ([] : List PSlot), true)
        else
          let newRows := ((List.range slotsToInsert.length).zip slotsToInsert).map
            (fun e => mkInsertRow sid (s.nextId + e.1) e.2)
          (s.rows ++ newRows, s.nextId + newRows.length, newRows, false)
      else (s.rows, s.nextId, ([] : List PSlot), false)
    let allSlotIds := ins.2.2.1.foldl addExistKeys existingSlotIds
    let ws2 := ws1.map (fun w =>
      if isVirtualWindow w then
        match (jget allSlotIds (normalizeTS w.start_time)).or
            (jget allSlotIds w.start_time) with
        | some i => { w with slot_ids := [SlotRef.real i] }
        | none => w
      else w)
    ⟨⟨ins.1, ins.2.1⟩, ws2, ins.2.2.2⟩

/-- Lines 440-446: the available rows in range that seed the real-id map. -/
def availQ (s : Store) (fromT toT : Int) : List PSlot :=
  s.rows.filter (fun r =>
    r.is_available && decide (fromT ≤ r.start_time.inst) &&
      decide (r.start_time.inst ≤ toT))

/-- The reconciliation step of getServiceWindows (lines 439-675): build the
real-id map from the available rows in range, map generated windows onto
real ids, then materialize the remaining virtual windows. -/
def reconcileServiceWindows (s : Store) (fromT toT : Int) (sid : Option Nat)
    (insertFails : Bool) (ws : List Window) : ReconcileResult :=
  let m := buildRealSlotIds (availQ s fromT toT)
  let ws1 := ws.map (resolveWindow m)
  materialize s sid insertFails ws1

/-- The generate-filter-reconcile pipeline of getServiceWindows
(lines 421-709, after service/closing resolution; labels are presentational
and omitted): the occupied set is read from the store, candidate windows
are generated directly, and reconciliation assigns persisted ids. -/
def getServiceWindowsCore (s : Store) (avails : List Availability)
    (duration : Nat) (fromT toT off : Int) (closing : HM) (minLead : Nat)
    (now : Int) (sid : Option Nat) (insertFails : Bool) : ReconcileResult :=
  let occupied := occupiedStartTimes s fromT toT
  let ws := generateServiceSlotsDirectly avails
    ⟨duration, fromT, toT, off, closing, occupied, minLead, now⟩
  reconcileServiceWindows s fromT toT sid insertFails ws

/-! ## Array mutation model for the builder's sort (frame effect) -/

/-- A heap of JS arrays of base slots; an address is an index into the
allocation list. -/
abbrev SlotHeap := List (List BaseSlot)

/-- Allocate a fresh array holding v; returns the heap and the new address. -/
def halloc (h : SlotHeap) (v : List BaseSlot) : SlotHeap × Nat :=
  (h ++ [v], h.length)

/-- Read the array at an address. -/
def hget (h : SlotHeap) (a : Nat) : List BaseSlot := h.getD a []

/-- Overwrite the array at an address. -/
def hset (h : SlotHeap) (a : Nat) (v : List BaseSlot) : SlotHeap := h.set a v

/-- Line 29 with the heap explicit: [...baseSlots] allocates a fresh copy of
the caller's array, and .sort mutates that copy in place.  The rest of the
function only reads id, start_time and is_available of the elements, so this
is the builder's only array effect.  Returns the heap after the call and the
sorted working array. -/
def buildSortStep (h : SlotHeap) (a : Nat) : SlotHeap × List BaseSlot :=
  let spread := halloc h (hget h a)
  let h1 := spread.1
  let b := spread.2
  let h2 := hset h1 b (sortByStart (hget h1 b))
  (h2, hget h2 b)

/-! ## Helper notions for the reconciliation proofs -/

/-- Attach an optional resolved real id to a window (the shared shape of the
real-id mapping step and of the post-materialization rewrite). -/
def applyId (w : Window) : Option Nat → Window
  | some i => { w with slot_ids := [SlotRef.real i] }
  | none => w

/-- The id of the last row of rows whose start denotes instant T (JS Map
overwrite semantics make the last registered row win every lookup). -/
def lastIdAt (rows : List PSlot) (T : Int) : Option Nat :=
  ((rows.filter (fun r => r.start_time.inst == T)).getLast?).map (fun r => r.id)

/-- The key set under which addRealKeys registers a row. -/
def kmReal (r : PSlot) (k : TSString) : Bool :=
  (normalizeTS r.start_time == k) || (stripMsZ (normalizeTS r.start_time) == k) ||
  (r.start_time == k)

/-- The key set under which addExistKeys registers a row. -/
def kmExist (r : PSlot) (k : TSString) : Bool :=
  (normalizeTS r.start_time == k) || (r.start_time == k)

/-- The windows of a reconciliation run that require a fresh insert: those the
real-id map missed and for which no row at all shares their start instant. -/
def insertCandidates (s : Store) (ws : List Window) (res : Window → Option Nat) :
    List Window :=
  (ws.filter (fun w => (res w).isNone)).filter
    (fun w => (lastIdAt s.rows w.start_time.inst).isNone)

/-- The rows the materialization batch insert appends ([] when the insert
fails or nothing needs inserting). -/
def createdRows (s : Store) (sid : Option Nat) (fails : Bool) (ws : List Window)
    (res : Window → Option Nat) : List PSlot :=
  if fails then []
  else
    ((List.range (insertCandidates s ws res).length).zip (insertCandidates s ws res)).map
      (fun e => ⟨s.nextId + e.1, sid, e.2.start_time, e.2.end_time, true⟩)

lemma normalizeTS_eq (t : TSString) : normalizeTS t = ⟨t.inst, true, true⟩ := rfl

lemma jget_nil (k : TSString) : jget [] k = none := rfl

lemma jget_jset (m : JMap) (k k' : TSString) (v : Nat) :
    jget (jset m k v) k' = if k = k' then some v else jget m k' := by
  unfold jget jset
  rw [List.find?_cons]
  by_cases h : k = k'
  · subst h; simp
  · rw [show ((k, v).1 == k') = false from beq_eq_false_iff_ne.mpr h, if_neg h]

lemma getLast?_cons_or {α : Type} (a : α) (l : List α) :
    (a :: l).getLast? = l.getLast?.or (some a) := by
  cases l with
  | nil => rfl
  | cons b l' =>
    rw [List.getLast?_cons_cons]
    cases h : (b :: l').getLast? with
    | none => exact absurd (List.getLast?_eq_none_iff.mp h) (by simp)
    | some y => rfl

lemma jget_foldl_char (add : JMap → PSlot → JMap) (km : PSlot → TSString → Bool)
    (hadd : ∀ m r k, jget (add m r) k = if km r k then some r.id else jget m k)
    (rows : List PSlot) (m0 : JMap) (k : TSString) :
    jget (rows.foldl add m0) k =
      (((rows.filter (fun r => km r k)).getLast?).map (fun r => r.id)).or (jget m0 k) := by
  induction rows generalizing m0 with
  | nil => simp
  | cons r rest ih =>
    rw [List.foldl_cons, ih, hadd, List.filter_cons]
    by_cases h : km r k = true
    · rw [if_pos h, if_pos h, getLast?_cons_or]
      rw [show ∀ (o o' : Option PSlot) (f : PSlot → Nat),
          (o.or o').map f = (o.map f).or (o'.map f) from fun o o' f => Option.map_or]
      rw [Option.or_assoc]
      rfl
    · rw [if_neg h, if_neg h]

lemma jget_addRealKeys (m : JMap) (r : PSlot) (k : TSString) :
    jget (addRealKeys m r) k = if kmReal r k then some r.id else jget m k := by
  have hne : stripMsZ (normalizeTS r.start_time) ≠ normalizeTS r.start_time := by
    rw [normalizeTS_eq]
    intro he
    simp [stripMsZ] at he
  unfold addRealKeys
  simp only []
  rw [if_pos hne, jget_jset, jget_jset, jget_jset]
  unfold kmReal
  by_cases h1 : normalizeTS r.start_time = k <;>
    by_cases h2 : stripMsZ (normalizeTS r.start_time) = k <;>
      by_cases h3 : r.start_time = k <;> simp [h1, h2, h3]

lemma jget_addExistKeys (m : JMap) (r : PSlot) (k : TSString) :
    jget (addExistKeys m r) k = if kmExist r k then some r.id else jget m k := by
  unfold addExistKeys
  rw [jget_jset, jget_jset]
  unfold kmExist
  by_cases h1 : normalizeTS r.start_time = k <;>
    by_cases h3 : r.start_time = k <;> simp [h1, h3]

lemma kmReal_inst {r : PSlot} {k : TSString} (h : kmReal r k = true) :
    r.start_time.inst = k.inst := by
  unfold kmReal at h
  simp only [Bool.or_eq_true, beq_iff_eq] at h
  rcases h with (h | h) | h
  · rw [← h]; rfl
  · rw [← h, normalizeTS_eq]; rfl
  · rw [← h]

lemma kmExist_inst {r : PSlot} {k : TSString} (h : kmExist r k = true) :
    r.start_time.inst = k.inst := by
  unfold kmExist at h
  simp only [Bool.or_eq_true, beq_iff_eq] at h
  rcases h with h | h
  · rw [← h]; rfl
  · rw [← h]

lemma kmReal_canon (r : PSlot) (T : Int) :
    kmReal r (canonTS T) = (r.start_time.inst == T) := by
  by_cases h : r.start_time.inst = T
  · unfold kmReal
    rw [normalizeTS_eq, h]
    simp [canonTS]
  · rw [show (r.start_time.inst == T) = false from beq_eq_false_iff_ne.mpr h]
    by_contra hc
    rw [Bool.not_eq_false] at hc
    exact h (kmReal_inst hc)

lemma kmExist_canon (r : PSlot) (T : Int) :
    kmExist r (canonTS T) = (r.start_time.inst == T) := by
  by_cases h : r.start_time.inst = T
  · unfold kmExist
    rw [normalizeTS_eq, h]
    simp [canonTS]
  · rw [show (r.start_time.inst == T) = false from beq_eq_false_iff_ne.mpr h]
    by_contra hc
    rw [Bool.not_eq_false] at hc
    exact h (kmExist_inst hc)

lemma jget_buildRealSlotIds (rows : List PSlot) (k : TSString) :
    jget (buildRealSlotIds rows) k =
      ((rows.filter (fun r => kmReal r k)).getLast?).map (fun r => r.id) := by
  unfold buildRealSlotIds
  rw [jget_foldl_char addRealKeys kmReal jget_addRealKeys, jget_nil, Option.or_none]

lemma lookupRealId_char (rows : List PSlot) (t : TSString) :
    lookupRealId (buildRealSlotIds rows) t = lastIdAt rows t.inst := by
  have hcanon : jget (buildRealSlotIds rows) (canonTS t.inst) = lastIdAt rows t.inst := by
    rw [jget_buildRealSlotIds]
    unfold lastIdAt
    rw [List.filter_congr (fun r _ => kmReal_canon r t.inst)]
  have hnorm : normalizeTS t = canonTS t.inst := rfl
  unfold lookupRealId
  simp only [hnorm, hcanon]
  cases hl : lastIdAt rows t.inst with
  | some i => rfl
  | none =>
    have hfil : rows.filter (fun r => r.start_time.inst == t.inst) = [] := by
      unfold lastIdAt at hl
      rw [Option.map_eq_none'] at hl
      exact List.getLast?_eq_none_iff.mp hl
    have hmiss : ∀ k : TSString, k.inst = t.inst → jget (buildRealSlotIds rows) k = none := by
      intro k hk
      rw [jget_buildRealSlotIds,
        show rows.filter (fun r => kmReal r k) = [] from ?_]
      · rfl
      · rw [List.filter_eq_nil_iff]
        intro r hr hkm
        have hi : r.start_time.inst = t.inst := by rw [kmReal_inst hkm, hk]
        exact (List.filter_eq_nil_iff.mp hfil r hr) (beq_iff_eq.mpr hi)
    rw [hmiss (stripMsZ (canonTS t.inst)) rfl, hmiss (zToOffset (canonTS t.inst)) rfl,
      hmiss (stripMsZToOffset (canonTS t.inst)) rfl, hmiss t rfl]

lemma resolveWindow_eq_applyId (m : JMap) (w : Window) :
    resolveWindow m w = applyId w (lookupRealId m w.start_time) := by
  unfold resolveWindow applyId
  cases lookupRealId m w.start_time <;> rfl

lemma jget_foldl_addExistKeys (rows : List PSlot) (m0 : JMap) (T : Int) :
    jget (rows.foldl addExistKeys m0) (canonTS T) =
      (lastIdAt rows T).or (jget m0 (canonTS T)) := by
  rw [jget_foldl_char addExistKeys kmExist jget_addExistKeys]
  unfold lastIdAt
  rw [List.filter_congr (fun r _ => kmExist_canon r T)]

lemma lastIdAt_nil (T : Int) : lastIdAt [] T = none := rfl

lemma lastIdAt_append (A B : List PSlot) (T : Int) :
    lastIdAt (A ++ B) T = (lastIdAt B T).or (lastIdAt A T) := by
  unfold lastIdAt
  rw [List.filter_append, List.getLast?_append]
  exact Option.map_or

lemma applyId_none (w : Window) : applyId w none = w := rfl

lemma applyId_start (w : Window) (o : Option Nat) :
    (applyId w o).start_time = w.start_time := by
  cases o <;> rfl

lemma isVirtualWindow_applyId (w : Window) (hw : w.slot_ids = [SlotRef.virt w.start_time])
    (o : Option Nat) : isVirtualWindow (applyId w o) = o.isNone := by
  cases o with
  | some i => rfl
  | none =>
    unfold isVirtualWindow applyId
    rw [hw]
    rfl

lemma applyId_match (w : Window) (o : Option Nat) :
    (match o with
     | some i => { w with slot_ids := [SlotRef.real i] }
     | none => w) = applyId w o := by
  cases o <;> rfl

lemma materialize_char (s : Store) (sid : Option Nat) (fails : Bool)
    (ws : List Window) (res : Window → Option Nat)
    (hw : ∀ w ∈ ws, w.slot_ids = [SlotRef.virt w.start_time] ∧
      w.start_time = canonTS w.start_time.inst) :
    materialize s sid fails (ws.map (fun w => applyId w (res w))) =
      ⟨⟨s.rows ++ createdRows s sid fails ws res,
        s.nextId + (createdRows s sid fails ws res).length⟩,
       ws.map (fun w => applyId w ((res w).or
         ((lastIdAt (createdRows s sid fails ws res) w.start_time.inst).or
          (lastIdAt s.rows w.start_time.inst)))),
       fails && !(insertCandidates s ws res).isEmpty⟩ := by
  have hV : (ws.map (fun w => applyId w (res w))).filter isVirtualWindow
      = (ws.filter (fun w => (res w).isNone)).map (fun w => applyId w (res w)) := by
    rw [List.filter_map]
    congr 1
    refine List.filter_congr ?_
    intro w hwmem
    exact isVirtualWindow_applyId w (hw w hwmem).1 (res w)
  have hVid : (ws.filter (fun w => (res w).isNone)).map (fun w => applyId w (res w))
      = ws.filter (fun w => (res w).isNone) := by
    have h1 : ∀ w ∈ ws.filter (fun w => (res w).isNone),
        applyId w (res w) = w := by
      intro w hwmem
      rw [List.mem_filter, Option.isNone_iff_eq_none] at hwmem
      rw [hwmem.2, applyId_none]
    rw [List.map_congr_left h1]
    exact List.map_id' _
  unfold materialize
  rw [hV.trans hVid]
  simp only []
  by_cases hlen : (ws.filter (fun w => (res w).isNone)).length = 0
  case pos =>
    have hVnil : ws.filter (fun w => (res w).isNone) = [] :=
      List.eq_nil_of_length_eq_zero hlen
    have hInil : insertCandidates s ws res = [] := by
      unfold insertCandidates
      rw [hVnil]
      rfl
    have hCnil : createdRows s sid fails ws res = [] := by
      unfold createdRows
      rw [hInil]
      cases fails <;> simp
    rw [if_pos hlen, hCnil, hInil]
    have hres : ∀ w ∈ ws, (res w).isSome := by
      intro w hwmem
      by_contra hno
      have : w ∈ ws.filter (fun w => (res w).isNone) := by
        rw [List.mem_filter]
        exact ⟨hwmem, by simp [Option.isNone_iff_eq_none,
          Option.not_isSome_iff_eq_none.mp hno]⟩
      rw [hVnil] at this
      exact absurd this (List.not_mem_nil w)
    have hwin : ws.map (fun w => applyId w (res w))
        = ws.map (fun w => applyId w ((res w).or
            ((lastIdAt [] w.start_time.inst).or (lastIdAt s.rows w.start_time.inst)))) := by
      refine List.map_congr_left ?_
      intro w hwmem
      obtain ⟨i, hi⟩ := Option.isSome_iff_exists.mp (hres w hwmem)
      rw [hi, Option.or_some]
    rw [← hwin]
    simp
  case neg =>
    rw [if_neg hlen]
    have hE : ∀ T : Int, (∃ w ∈ ws.filter (fun w => (res w).isNone),
        w.start_time.inst = T) →
        lastIdAt (s.rows.filter (fun r =>
          ((ws.filter (fun w => (res w).isNone)).map (fun w => w.start_time)).any
            (fun t => t.inst == r.start_time.inst))) T
        = lastIdAt s.rows T := by
      intro T hT
      obtain ⟨w, hwmem, hwT⟩ := hT
      unfold lastIdAt
      rw [List.filter_filter]
      congr 2
      refine List.filter_congr ?_
      intro r hr
      by_cases hiT : r.start_time.inst = T
      · have hany : (((ws.filter (fun w => (res w).isNone)).map
            (fun w => w.start_time)).any (fun t => t.inst == r.start_time.inst)) = true := by
          refine List.any_eq_true.mpr ?_
          refine ⟨w.start_time, List.mem_map.mpr ⟨w, hwmem, rfl⟩, ?_⟩
          rw [beq_iff_eq, hwT, hiT]
        rw [hany, Bool.and_true]
      · rw [show (r.start_time.inst == T) = false from beq_eq_false_iff_ne.mpr hiT,
          Bool.false_and]
    have hEM : ∀ T : Int, (∃ w ∈ ws.filter (fun w => (res w).isNone),
        w.start_time.inst = T) →
        jget ((s.rows.filter (fun r =>
          ((ws.filter (fun w => (res w).isNone)).map (fun w => w.start_time)).any
            (fun t => t.inst == r.start_time.inst))).foldl addExistKeys []) (canonTS T)
        = lastIdAt s.rows T := by
      intro T hT
      rw [jget_foldl_addExistKeys, jget_nil, Option.or_none, hE T hT]
    have hSI : List.filter
        (fun c => (jget (List.foldl addExistKeys []
            (List.filter (fun r =>
              (List.map (fun w => w.start_time) (List.filter (fun w => (res w).isNone) ws)).any
                (fun t => t.inst == r.start_time.inst)) s.rows))
          (normalizeTS c.start_time)).isNone)
        (List.map (fun w => ({ start_time := w.start_time, end_time := w.end_time } : SlotInsert))
          (List.filter (fun w => (res w).isNone) ws))
        = List.map (fun w => ({ start_time := w.start_time, end_time := w.end_time } : SlotInsert))
            (insertCandidates s ws res) := by
      rw [List.filter_map]
      unfold insertCandidates
      congr 1
      refine List.filter_congr ?_
      intro w hwmem
      have hcan : normalizeTS w.start_time = canonTS w.start_time.inst := rfl
      show (jget _ (normalizeTS w.start_time)).isNone = _
      rw [hcan, hEM w.start_time.inst ⟨w, hwmem, rfl⟩]
    rw [hSI, List.length_map]
    have hNR : List.map (fun e => mkInsertRow sid (s.nextId + e.1) e.2)
        ((List.range (insertCandidates s ws res).length).zip
          (List.map (fun w => ({ start_time := w.start_time, end_time := w.end_time } : SlotInsert))
            (insertCandidates s ws res)))
        = ((List.range (insertCandidates s ws res).length).zip (insertCandidates s ws res)).map
            (fun e => (⟨s.nextId + e.1, sid, e.2.start_time, e.2.end_time, true⟩ : PSlot)) := by
      rw [List.zip_map_right, List.map_map]
      rfl
    rw [hNR]
    have hwinmain : ∀ C : List PSlot,
        List.map ((fun w => if isVirtualWindow w then
            match (jget (C.foldl addExistKeys
                ((s.rows.filter (fun r =>
                  ((ws.filter (fun w => (res w).isNone)).map (fun w => w.start_time)).any
                    (fun t => t.inst == r.start_time.inst))).foldl addExistKeys []))
                (normalizeTS w.start_time)).or
              (jget (C.foldl addExistKeys
                ((s.rows.filter (fun r =>
                  ((ws.filter (fun w => (res w).isNone)).map (fun w => w.start_time)).any
                    (fun t => t.inst == r.start_time.inst))).foldl addExistKeys []))
                w.start_time) with
            | some i => { w with slot_ids := [SlotRef.real i] }
            | none => w
          else w) ∘ (fun w => applyId w (res w))) ws
        = ws.map (fun w => applyId w ((res w).or
            ((lastIdAt C w.start_time.inst).or (lastIdAt s.rows w.start_time.inst)))) := by
      intro C
      refine List.map_congr_left ?_
      intro w hwmem
      simp only [Function.comp]
      cases hres : res w with
      | some i =>
        rw [show applyId w (some i) = { w with slot_ids := [SlotRef.real i] } from rfl]
        rw [show isVirtualWindow { w with slot_ids := [SlotRef.real i] } = false from rfl]
        rw [Option.or_some]
        rfl
      | none =>
        rw [applyId_none]
        have hv : isVirtualWindow w = true := by
          unfold isVirtualWindow
          rw [(hw w hwmem).1]
          rfl
        rw [hv]
        simp only [if_true]
        have hws : w.start_time = canonTS w.start_time.inst := (hw w hwmem).2
        have hnw : normalizeTS w.start_time = canonTS w.start_time.inst := rfl
        rw [hnw]
        rw [show (jget (C.foldl addExistKeys
            ((s.rows.filter (fun r =>
              ((ws.filter (fun w => (res w).isNone)).map (fun w => w.start_time)).any
                (fun t => t.inst == r.start_time.inst))).foldl addExistKeys []))
            w.start_time)
          = jget (C.foldl addExistKeys
            ((s.rows.filter (fun r =>
              ((ws.filter (fun w => (res w).isNone)).map (fun w => w.start_time)).any
                (fun t => t.inst == r.start_time.inst))).foldl addExistKeys []))
            (canonTS w.start_time.inst) from by rw [← hws]]
        rw [Option.or_self]
        rw [jget_foldl_addExistKeys]
        rw [hEM w.start_time.inst ⟨w, List.mem_filter.mpr ⟨hwmem, by rw [hres]; rfl⟩, rfl⟩]
        rw [applyId_match, Option.none_or]
    by_cases hI0 : (insertCandidates s ws res).length = 0
    case pos =>
      have hInil : insertCandidates s ws res = [] := List.eq_nil_of_length_eq_zero hI0
      have hCnil : createdRows s sid fails ws res = [] := by
        unfold createdRows
        rw [hInil]
        cases fails <;> simp
      rw [if_neg (not_not_intro hI0)]
      simp only []
      rw [hCnil, hInil, List.map_map, hwinmain []]
      simp
    case neg =>
      rw [if_pos hI0]
      have hne : insertCandidates s ws res ≠ [] := by
        intro h
        rw [h] at hI0
        exact hI0 rfl
      have hemp : (insertCandidates s ws res).isEmpty = false := by
        cases hic : insertCandidates s ws res with
        | nil => exact absurd hic hne
        | cons a l => rfl
      cases hfails : fails with
      | true =>
        rw [if_pos rfl]
        simp only []
        have hCnil : createdRows s sid true ws res = [] := by
          unfold createdRows
          rfl
        rw [hCnil, List.map_map, hwinmain []]
        simp [hemp]
      | false =>
        rw [if_neg Bool.false_ne_true]
        simp only []
        have hCR : createdRows s sid false ws res
            = ((List.range (insertCandidates s ws res).length).zip
                (insertCandidates s ws res)).map
                (fun e => (⟨s.nextId + e.1, sid, e.2.start_time, e.2.end_time, true⟩ : PSlot)) := by
          unfold createdRows
          rfl
        rw [hCR, List.map_map, hwinmain
          (((List.range (insertCandidates s ws res).length).zip
            (insertCandidates s ws res)).map
            (fun e => (⟨s.nextId + e.1, sid, e.2.start_time, e.2.end_time, true⟩ : PSlot)))]
        simp [hemp]

lemma reconcile_char (s : Store) (lo hi : Int) (sid : Option Nat) (fails : Bool)
    (ws : List Window)
    (hw : ∀ w ∈ ws, w.slot_ids = [SlotRef.virt w.start_time] ∧
      w.start_time = canonTS w.start_time.inst) :
    reconcileServiceWindows s lo hi sid fails ws =
      ⟨⟨s.rows ++ createdRows s sid fails ws
          (fun w => lastIdAt (availQ s lo hi) w.start_time.inst),
        s.nextId + (createdRows s sid fails ws
          (fun w => lastIdAt (availQ s lo hi) w.start_time.inst)).length⟩,
       ws.map (fun w => applyId w ((lastIdAt (availQ s lo hi) w.start_time.inst).or
         ((lastIdAt (createdRows s sid fails ws
             (fun w => lastIdAt (availQ s lo hi) w.start_time.inst)) w.start_time.inst).or
          (lastIdAt s.rows w.start_time.inst)))),
       fails && !(insertCandidates s ws
         (fun w => lastIdAt (availQ s lo hi) w.start_time.inst)).isEmpty⟩ := by
  unfold reconcileServiceWindows
  simp only []
  have hres : ws.map (resolveWindow (buildRealSlotIds (availQ s lo hi)))
      = ws.map (fun w => applyId w (lastIdAt (availQ s lo hi) w.start_time.inst)) := by
    refine List.map_congr_left ?_
    intro w _
    rw [resolveWindow_eq_applyId, lookupRealId_char]
  rw [hres]
  exact materialize_char s sid fails ws
    (fun w => lastIdAt (availQ s lo hi) w.start_time.inst) hw

lemma lastIdAt_eq_none_iff (rows : List PSlot) (T : Int) :
    lastIdAt rows T = none ↔ rows.filter (fun r => r.start_time.inst == T) = [] := by
  unfold lastIdAt
  rw [Option.map_eq_none', List.getLast?_eq_none_iff]

lemma lastIdAt_isSome_of_mem {rows : List PSlot} {r : PSlot} (hr : r ∈ rows)
    {T : Int} (hT : r.start_time.inst = T) : (lastIdAt rows T).isSome = true := by
  unfold lastIdAt
  rw [Option.isSome_map']
  rw [List.getLast?_isSome]
  intro hnil
  have : r ∈ rows.filter (fun r => r.start_time.inst == T) :=
    List.mem_filter.mpr ⟨hr, beq_iff_eq.mpr hT⟩
  rw [hnil] at this
  exact absurd this (List.not_mem_nil r)

lemma exists_zip_range {α : Type} {l : List α} {w : α} (hm : w ∈ l) :
    ∃ k, (k, w) ∈ (List.range l.length).zip l := by
  obtain ⟨i, hi, hg⟩ := List.mem_iff_getElem.mp hm
  refine ⟨i, ?_⟩
  have hlen : i < ((List.range l.length).zip l).length := by
    rw [List.length_zip, List.length_range]
    simp [hi]
  refine List.mem_iff_getElem.mpr ⟨i, hlen, ?_⟩
  rw [List.getElem_zip, List.getElem_range, hg]

lemma mem_insertCandidates {s : Store} {ws : List Window} {res : Window → Option Nat}
    {w : Window} :
    w ∈ insertCandidates s ws res ↔
      w ∈ ws ∧ (res w).isNone = true ∧ (lastIdAt s.rows w.start_time.inst).isNone = true := by
  unfold insertCandidates
  rw [List.mem_filter, List.mem_filter]
  tauto

lemma mem_createdRows {s : Store} {sid : Option Nat} {ws : List Window}
    {res : Window → Option Nat} {r : PSlot}
    (hr : r ∈ createdRows s sid false ws res) :
    r.is_available = true ∧ ∃ w ∈ insertCandidates s ws res, r.start_time = w.start_time := by
  unfold createdRows at hr
  rw [if_neg Bool.false_ne_true] at hr
  obtain ⟨e, he, hre⟩ := List.mem_map.mp hr
  obtain ⟨-, he2⟩ := List.of_mem_zip he
  exact ⟨by rw [← hre], ⟨e.2, he2, by rw [← hre]⟩⟩

lemma createdRows_cover (sid : Option Nat) {s : Store} {ws : List Window}
    {res : Window → Option Nat} {w : Window}
    (hmem : w ∈ insertCandidates s ws res) :
    (lastIdAt (createdRows s sid false ws res) w.start_time.inst).isSome = true := by
  obtain ⟨k, hk⟩ := exists_zip_range hmem
  have hrow : (⟨s.nextId + k, sid, w.start_time, w.end_time, true⟩ : PSlot)
      ∈ createdRows s sid false ws res := by
    unfold createdRows
    rw [if_neg Bool.false_ne_true]
    exact List.mem_map.mpr ⟨(k, w), hk, rfl⟩
  exact lastIdAt_isSome_of_mem hrow rfl

lemma lastIdAt_filter_range (C : List PSlot) (lo hi T : Int) :
    lastIdAt (C.filter (fun r => decide (lo ≤ r.start_time.inst) &&
      decide (r.start_time.inst ≤ hi))) T =
    if lo ≤ T ∧ T ≤ hi then lastIdAt C T else none := by
  unfold lastIdAt
  rw [List.filter_filter]
  by_cases h : lo ≤ T ∧ T ≤ hi
  · rw [if_pos h]
    congr 2
    refine List.filter_congr ?_
    intro r _
    by_cases hT : r.start_time.inst = T
    · rw [hT]
      simp [h.1, h.2]
    · simp [show (r.start_time.inst == T) = false from beq_eq_false_iff_ne.mpr hT]
  · rw [if_neg h]
    rw [show List.filter (fun r => (r.start_time.inst == T) &&
        (decide (lo ≤ r.start_time.inst) && decide (r.start_time.inst ≤ hi))) C = []
      from List.filter_eq_nil_iff.mpr ?_]
    · rfl
    · intro r hr hcontra
      simp only [Bool.and_eq_true, beq_iff_eq, decide_eq_true_eq] at hcontra
      exact h (by rw [← hcontra.1]; exact ⟨hcontra.2.1, hcontra.2.2⟩)

lemma availQ_append_created (s : Store) (lo hi : Int) (C : List PSlot)
    (hav : ∀ r ∈ C, r.is_available = true) (n : Nat) :
    availQ ⟨s.rows ++ C, n⟩ lo hi
      = availQ s lo hi ++ C.filter (fun r => decide (lo ≤ r.start_time.inst) &&
          decide (r.start_time.inst ≤ hi)) := by
  unfold availQ
  rw [List.filter_append]
  congr 1
  refine List.filter_congr ?_
  intro r hr
  rw [hav r hr]
  simp

lemma reconcile_idem_aux (s : Store) (lo hi : Int) (sid : Option Nat)
    (ws : List Window)
    (hw : ∀ w ∈ ws, w.slot_ids = [SlotRef.virt w.start_time] ∧
      w.start_time = canonTS w.start_time.inst) :
    reconcileServiceWindows
        (reconcileServiceWindows s lo hi sid false ws).store lo hi sid false ws
      = reconcileServiceWindows s lo hi sid false ws ∧
    ∀ w ∈ (reconcileServiceWindows s lo hi sid false ws).windows,
      ∃ n, w.slot_ids = [SlotRef.real n] := by
  have h1 := reconcile_char s lo hi sid false ws hw
  have havail : ∀ r ∈ createdRows s sid false ws
      (fun w => lastIdAt (availQ s lo hi) w.start_time.inst), r.is_available = true :=
    fun r hr => (mem_createdRows hr).1
  have hnoS : ∀ r ∈ createdRows s sid false ws
      (fun w => lastIdAt (availQ s lo hi) w.start_time.inst),
      lastIdAt s.rows r.start_time.inst = none := by
    intro r hr
    obtain ⟨-, w, hwI, hstart⟩ := mem_createdRows hr
    rw [hstart]
    exact Option.isNone_iff_eq_none.mp (mem_insertCandidates.mp hwI).2.2
  -- the store after run 1
  have hs1 : (reconcileServiceWindows s lo hi sid false ws).store
      = ⟨s.rows ++ createdRows s sid false ws
          (fun w => lastIdAt (availQ s lo hi) w.start_time.inst),
        s.nextId + (createdRows s sid false ws
          (fun w => lastIdAt (availQ s lo hi) w.start_time.inst)).length⟩ := by
    rw [h1]
  -- run 2's availability map over the appended store
  have hq2 : availQ (reconcileServiceWindows s lo hi sid false ws).store lo hi
      = availQ s lo hi ++ (createdRows s sid false ws
          (fun w => lastIdAt (availQ s lo hi) w.start_time.inst)).filter
          (fun r => decide (lo ≤ r.start_time.inst) && decide (r.start_time.inst ≤ hi)) := by
    rw [hs1]
    exact availQ_append_created s lo hi _ havail _
  -- run 2's phase-1 resolution per start instant
  have hres2 : ∀ T : Int,
      lastIdAt (availQ (reconcileServiceWindows s lo hi sid false ws).store lo hi) T
      = ((if lo ≤ T ∧ T ≤ hi then
            lastIdAt (createdRows s sid false ws
              (fun w => lastIdAt (availQ s lo hi) w.start_time.inst)) T
          else none)).or (lastIdAt (availQ s lo hi) T) := by
    intro T
    rw [hq2, lastIdAt_append, lastIdAt_filter_range]
  -- per-instant facts
  have hBnoneOfD : ∀ T : Int, lastIdAt s.rows T ≠ none →
      lastIdAt (createdRows s sid false ws
        (fun w => lastIdAt (availQ s lo hi) w.start_time.inst)) T = none := by
    intro T hD
    rw [lastIdAt_eq_none_iff]
    rw [List.filter_eq_nil_iff]
    intro r hr hrT
    have := hnoS r hr
    rw [beq_iff_eq.mp hrT] at this
    exact hD this
  have hAD : ∀ T : Int, lastIdAt (availQ s lo hi) T ≠ none → lastIdAt s.rows T ≠ none := by
    intro T hA hD
    rw [lastIdAt_eq_none_iff] at hD
    refine hA ?_
    rw [lastIdAt_eq_none_iff, List.filter_eq_nil_iff]
    intro r hr hrT
    have hrmem : r ∈ s.rows := by
      unfold availQ at hr
      exact (List.mem_filter.mp hr).1
    exact (List.filter_eq_nil_iff.mp hD r hrmem) hrT
  -- second run inserts nothing
  have hI2 : insertCandidates (reconcileServiceWindows s lo hi sid false ws).store ws
      (fun w => lastIdAt
        (availQ (reconcileServiceWindows s lo hi sid false ws).store lo hi)
        w.start_time.inst) = [] := by
    unfold insertCandidates
    rw [List.filter_filter, List.filter_eq_nil_iff]
    intro w hwmem hcontra
    simp only [Bool.and_eq_true, Option.isNone_iff_eq_none] at hcontra
    obtain ⟨hs1rows, hres2none⟩ := hcontra
    rw [hres2 w.start_time.inst] at hres2none
    have hA : lastIdAt (availQ s lo hi) w.start_time.inst = none := by
      cases hor : (if lo ≤ w.start_time.inst ∧ w.start_time.inst ≤ hi then
          lastIdAt (createdRows s sid false ws
            (fun w => lastIdAt (availQ s lo hi) w.start_time.inst)) w.start_time.inst
        else none) with
      | none => rw [hor, Option.none_or] at hres2none; exact hres2none
      | some v => rw [hor, Option.or_some] at hres2none; exact absurd hres2none (by simp)
    rw [hs1, lastIdAt_append] at hs1rows
    cases hD : lastIdAt s.rows w.start_time.inst with
    | some v =>
      rw [hD] at hs1rows
      cases hB : lastIdAt (createdRows s sid false ws
          (fun w => lastIdAt (availQ s lo hi) w.start_time.inst)) w.start_time.inst <;>
        rw [hB] at hs1rows <;> exact absurd hs1rows (by simp)
    | none =>
      have hwI : w ∈ insertCandidates s ws
          (fun w => lastIdAt (availQ s lo hi) w.start_time.inst) :=
        mem_insertCandidates.mpr ⟨hwmem, by rw [hA]; rfl, by rw [hD]; rfl⟩
      have := createdRows_cover sid hwI
      cases hB : lastIdAt (createdRows s sid false ws
          (fun w => lastIdAt (availQ s lo hi) w.start_time.inst)) w.start_time.inst with
      | none => rw [hB] at this; exact absurd this (by simp)
      | some v => rw [hB, hD] at hs1rows; exact absurd hs1rows (by simp)
  have hDnoneOfB : ∀ T : Int,
      lastIdAt (createdRows s sid false ws
        (fun w => lastIdAt (availQ s lo hi) w.start_time.inst)) T ≠ none →
      lastIdAt s.rows T = none := by
    intro T hB
    by_contra hD
    exact hB (hBnoneOfD T hD)
  have hC2 : createdRows (reconcileServiceWindows s lo hi sid false ws).store sid false ws
      (fun w => lastIdAt (availQ (reconcileServiceWindows s lo hi sid false ws).store lo hi)
        w.start_time.inst) = [] := by
    unfold createdRows
    rw [if_neg Bool.false_ne_true, hI2]
    rfl
  have h2 := reconcile_char (reconcileServiceWindows s lo hi sid false ws).store
    lo hi sid false ws hw
  have hor : ∀ A B D B' : Option Nat, (B' = none ∨ B' = B) →
      (D ≠ none → B = none) → (A ≠ none → D ≠ none) →
      (B'.or A).or ((Option.none).or (B.or D)) = A.or (B.or D) := by
    intro A B D B' hB' hDB hAD
    rw [Option.none_or]
    cases A with
    | some a =>
      have hB : B = none := hDB (hAD (by intro h; cases h))
      rcases hB' with h | h <;> rw [h] <;> simp [hB]
    | none =>
      cases B with
      | none => rcases hB' with h | h <;> rw [h] <;> simp
      | some b => rcases hB' with h | h <;> rw [h] <;> simp
  have hpt : ∀ w ∈ ws,
      applyId w ((lastIdAt (availQ (reconcileServiceWindows s lo hi sid false ws).store
          lo hi) w.start_time.inst).or
        ((lastIdAt ([] : List PSlot) w.start_time.inst).or
         (lastIdAt (reconcileServiceWindows s lo hi sid false ws).store.rows
           w.start_time.inst)))
      = applyId w ((lastIdAt (availQ s lo hi) w.start_time.inst).or
          ((lastIdAt (createdRows s sid false ws
              (fun w => lastIdAt (availQ s lo hi) w.start_time.inst)) w.start_time.inst).or
           (lastIdAt s.rows w.start_time.inst))) := by
    intro w _
    rw [hres2 w.start_time.inst, lastIdAt_nil, hs1, lastIdAt_append]
    refine congrArg (applyId w) ?_
    refine hor _ _ _ _ ?_ (hBnoneOfD w.start_time.inst) (hAD w.start_time.inst)
    by_cases hrange : lo ≤ w.start_time.inst ∧ w.start_time.inst ≤ hi
    · exact Or.inr (if_pos hrange)
    · exact Or.inl (if_neg hrange)
  constructor
  · rw [h2, hC2, hI2]
    rw [List.map_congr_left hpt]
    rw [h1]
    simp
  · rw [h1]
    intro w' hw'
    simp only [] at hw'
    obtain ⟨w, hwmem, hweq⟩ := List.mem_map.mp hw'
    cases hX : (lastIdAt (availQ s lo hi) w.start_time.inst).or
        ((lastIdAt (createdRows s sid false ws
            (fun w => lastIdAt (availQ s lo hi) w.start_time.inst)) w.start_time.inst).or
         (lastIdAt s.rows w.start_time.inst)) with
    | some n =>
      refine ⟨n, ?_⟩
      rw [← hweq, hX]
      rfl
    | none =>
      exfalso
      have hparts := Option.or_eq_none.mp hX
      have hparts2 := Option.or_eq_none.mp hparts.2
      have hwI : w ∈ insertCandidates s ws
          (fun w => lastIdAt (availQ s lo hi) w.start_time.inst) :=
        mem_insertCandidates.mpr ⟨hwmem, by rw [hparts.1]; rfl, by rw [hparts2.2]; rfl⟩
      have := createdRows_cover sid hwI
      rw [hparts2.1] at this
      exact absurd this (by simp)

/-! ## Builder characterization -/

lemma localDay_eq_of_bounds {off T : Int} (day : Int)
    (h1 : day * 1440 ≤ T + off) (h2 : T + off < (day + 1) * 1440) :
    localDay off T = day := by
  unfold localDay
  rw [Int.fdiv_eq_ediv _ (by norm_num)]
  omega

lemma mem_insertByStart {x y : BaseSlot} : ∀ {l : List BaseSlot},
    (y ∈ insertByStart x l ↔ y = x ∨ y ∈ l) := by
  intro l
  induction l with
  | nil => simp [insertByStart]
  | cons a l ih =>
    unfold insertByStart
    by_cases h : a.start_time < x.start_time
    · rw [if_pos h]
      simp only [List.mem_cons, ih]
      try tauto
    · rw [if_neg h]
      simp only [List.mem_cons]
      try tauto

lemma mem_sortByStart {x : BaseSlot} {l : List BaseSlot} :
    x ∈ sortByStart l ↔ x ∈ l := by
  unfold sortByStart
  induction l with
  | nil => simp
  | cons a l ih =>
    rw [List.foldr_cons, mem_insertByStart]
    simp only [List.mem_cons]
    rw [ih]

lemma consecutiveOk_chain {step : Nat} : ∀ {l : List BaseSlot},
    consecutiveOk step l = true →
    List.Chain' (fun a b => b.start_time - a.start_time = (step : Int)) l := by
  intro l
  induction l with
  | nil => intro; exact List.chain'_nil
  | cons a l ih =>
    cases l with
    | nil => intro; simp
    | cons b l2 =>
      intro h
      unfold consecutiveOk at h
      rw [Bool.and_eq_true] at h
      exact List.Chain'.cons (beq_iff_eq.mp h.1) (ih h.2)

lemma windowAt_some {P : BuildParams} {slots : List BaseSlot} {needed i : Nat} {w : Window}
    (h : windowAt P slots needed i = some w) :
    ∃ g0 rest, (slots.drop i).take needed = g0 :: rest ∧
      w.start_time = canonTS g0.start_time ∧
      w.end_time = canonTS (g0.start_time + (P.durationMinutes : Int)) ∧
      w.slot_ids = (g0 :: rest).map (fun s => s.id) ∧
      (∀ s ∈ g0 :: rest, s.is_available = true) ∧
      consecutiveOk P.slotStepMinutes (g0 :: rest) = true ∧
      builderLeadAccept P.off P.slotStepMinutes (P.now + (P.minLeadMinutes : Int))
        g0.start_time = true ∧
      g0.start_time + (P.durationMinutes : Int)
        ≤ localDayStart P.off g0.start_time + P.closingTime.mins := by
  unfold windowAt at h
  simp only [] at h
  by_cases h1 : ((slots.drop i).take needed).any (fun s => !s.is_available) = true
  · rw [if_pos h1] at h; cases h
  rw [if_neg h1] at h
  by_cases h2 : consecutiveOk P.slotStepMinutes ((slots.drop i).take needed) = true
  case neg =>
    rw [if_pos (by simp [Bool.not_eq_true] at h2 ⊢; exact h2)] at h
    cases h
  rw [if_neg (by rw [h2]; simp)] at h
  cases hg : (slots.drop i).take needed with
  | nil => rw [hg] at h; cases h
  | cons g0 rest =>
    rw [hg] at h h1 h2
    simp only [List.head?] at h
    by_cases h3 : builderLeadAccept P.off P.slotStepMinutes
      (P.now + (P.minLeadMinutes : Int)) g0.start_time = true
    case neg =>
      rw [if_pos (by simp [Bool.not_eq_true] at h3 ⊢; exact h3)] at h
      cases h
    rw [if_neg (by rw [h3]; simp)] at h
    by_cases h4 : localDayStart P.off g0.start_time + P.closingTime.mins
        < g0.start_time + (P.durationMinutes : Int)
    · rw [if_pos h4] at h; cases h
    rw [if_neg h4] at h
    refine ⟨g0, rest, rfl, ?_, ?_, ?_, ?_, h2, h3, by omega⟩
    · rw [← Option.some_inj.mp h]
    · rw [← Option.some_inj.mp h]
    · rw [← Option.some_inj.mp h]
    · intro s hs
      by_contra hna
      have : ((g0 :: rest).any (fun s => !s.is_available)) = true :=
        List.any_eq_true.mpr ⟨s, hs, by simp [Bool.not_eq_true] at hna ⊢; exact hna⟩
      exact h1 this

lemma mem_buildServiceWindows {P : BuildParams} {w : Window}
    (hmem : w ∈ buildServiceWindowsFromBaseSlots P) :
    P.slotStepMinutes ≠ 0 ∧
    ∃ i, windowAt P (sortByStart P.baseSlots)
        ((P.durationMinutes + P.slotStepMinutes - 1) / P.slotStepMinutes) i = some w ∧
      i + ((P.durationMinutes + P.slotStepMinutes - 1) / P.slotStepMinutes)
        ≤ (sortByStart P.baseSlots).length := by
  unfold buildServiceWindowsFromBaseSlots at hmem
  by_cases hstep : P.slotStepMinutes = 0
  · rw [if_pos hstep] at hmem; cases hmem
  rw [if_neg hstep] at hmem
  simp only [] at hmem
  refine ⟨hstep, ?_⟩
  by_cases hlen : (sortByStart P.baseSlots).length = 0
  · rw [if_pos hlen] at hmem; cases hmem
  rw [if_neg hlen] at hmem
  obtain ⟨i, hi, hwi⟩ := List.mem_filterMap.mp hmem
  rw [List.mem_range] at hi
  exact ⟨i, hwi, by omega⟩

/-! ## Generator characterization -/

lemma genSlotsLoop_spec {p : GenParams} {dayEnd dayClosing : Int} :
    ∀ {fuel : Nat} {s0 : Int} {w : Window},
    w ∈ genSlotsLoop p dayEnd dayClosing fuel s0 →
    ∃ T : Int, w = ⟨canonTS T, canonTS (T + (p.duration : Int)),
        [SlotRef.virt (canonTS T)]⟩ ∧
      s0 ≤ T ∧ T < dayEnd ∧ T + (p.duration : Int) ≤ dayClosing ∧
      p.fromT ≤ T ∧ T ≤ p.toT ∧
      generatorLeadAccept p.off (p.now + (p.minLead : Int)) T = true ∧
      p.occupied.contains (canonTS T) = false := by
  intro fuel
  induction fuel with
  | zero => intro s0 w hmem; cases hmem
  | succ n ih =>
    intro s0 w hmem
    unfold genSlotsLoop at hmem
    by_cases hlt : s0 < dayEnd
    case neg => rw [if_neg hlt] at hmem; cases hmem
    rw [if_pos hlt] at hmem
    simp only [] at hmem
    by_cases hcl : dayClosing < s0 + (p.duration : Int)
    · rw [if_pos hcl] at hmem; cases hmem
    rw [if_neg hcl] at hmem
    rw [List.mem_append] at hmem
    cases hmem with
    | inr hrec =>
      obtain ⟨T, hweq, hs0, hrest⟩ := ih hrec
      exact ⟨T, hweq, by omega, hrest⟩
    | inl hhead =>
      by_cases hkeep : (decide (p.fromT ≤ s0) && decide (s0 ≤ p.toT) &&
          generatorLeadAccept p.off (p.now + (p.minLead : Int)) s0 &&
          !(p.occupied.contains (canonTS s0))) = true
      case neg =>
        rw [if_neg hkeep] at hhead
        cases hhead
      rw [if_pos hkeep] at hhead
      simp only [Bool.and_eq_true, decide_eq_true_eq, Bool.not_eq_true'] at hkeep
      rw [List.mem_singleton] at hhead
      exact ⟨s0, hhead, le_refl s0, hlt, by omega,
        hkeep.1.1.1, hkeep.1.1.2, hkeep.1.2, hkeep.2⟩

lemma genDirect_spec {avails : List Availability} {p : GenParams} {w : Window}
    (hmem : w ∈ generateServiceSlotsDirectly avails p) :
    ∃ (day : Int) (av : Availability) (T : Int), av ∈ avails ∧
      w = ⟨canonTS T, canonTS (T + (p.duration : Int)), [SlotRef.virt (canonTS T)]⟩ ∧
      day * 1440 + av.start_time.mins - p.off ≤ T ∧
      T < day * 1440 + av.end_time.mins - p.off ∧
      T + (p.duration : Int) ≤ day * 1440 + p.closing.mins - p.off ∧
      p.fromT ≤ T ∧ T ≤ p.toT ∧
      generatorLeadAccept p.off (p.now + (p.minLead : Int)) T = true ∧
      p.occupied.contains (canonTS T) = false := by
  unfold generateServiceSlotsDirectly at hmem
  by_cases hemp : avails.isEmpty = true
  · rw [if_pos hemp] at hmem; cases hmem
  rw [if_neg hemp] at hmem
  obtain ⟨day, hday, hw2⟩ := List.mem_flatMap.mp hmem
  unfold genForDay at hw2
  simp only [] at hw2
  cases hfind : avails.find? (fun av => av.day_of_week ==
      (if luxonWeekday day == 7 then 0 else luxonWeekday day)) with
  | none => rw [hfind] at hw2; cases hw2
  | some av =>
    rw [hfind] at hw2
    obtain ⟨T, hweq, hs0, hlt, hcl, hrest⟩ := genSlotsLoop_spec hw2
    exact ⟨day, av, T, List.mem_of_find?_eq_some hfind, hweq, hs0, hlt, hcl, hrest⟩

/-! ## Fallback generator characterization -/

lemma genAvailLoop_spec {p : GetSlotsParams} {dayEnd : Int} :
    ∀ {fuel : Nat} {s0 : Int} {v : VSlot},
    v ∈ genAvailLoop p dayEnd fuel s0 →
    ∃ T : Int, v = ⟨SlotRef.virt (canonTS T), p.service_id, canonTS T,
        canonTS (T + 15), true⟩ ∧
      s0 ≤ T ∧ T < dayEnd ∧ p.fromT ≤ T ∧ T ≤ p.toT := by
  intro fuel
  induction fuel with
  | zero => intro s0 v hmem; cases hmem
  | succ n ih =>
    intro s0 v hmem
    unfold genAvailLoop at hmem
    by_cases hlt : s0 < dayEnd
    case neg => rw [if_neg hlt] at hmem; cases hmem
    rw [if_pos hlt] at hmem
    simp only [] at hmem
    rw [List.mem_append] at hmem
    cases hmem with
    | inr hrec =>
      obtain ⟨T, hveq, hs0, hrest⟩ := ih hrec
      exact ⟨T, hveq, by omega, hrest⟩
    | inl hhead =>
      by_cases hkeep : (decide (p.fromT ≤ s0) && decide (s0 ≤ p.toT)) = true
      case neg => rw [if_neg hkeep] at hhead; cases hhead
      rw [if_pos hkeep] at hhead
      simp only [Bool.and_eq_true, decide_eq_true_eq] at hkeep
      rw [List.mem_singleton] at hhead
      exact ⟨s0, hhead, le_refl s0, hlt, hkeep.1, hkeep.2⟩

lemma genFromAvail_spec {avails : List Availability} {p : GetSlotsParams} {v : VSlot}
    (hmem : v ∈ generateSlotsFromAvailabilities avails p) :
    ∃ T : Int, v = ⟨SlotRef.virt (canonTS T), p.service_id, canonTS T,
        canonTS (T + 15), true⟩ ∧ p.fromT ≤ T ∧ T ≤ p.toT := by
  unfold generateSlotsFromAvailabilities at hmem
  by_cases hemp : avails.isEmpty = true
  · rw [if_pos hemp] at hmem; cases hmem
  rw [if_neg hemp] at hmem
  obtain ⟨day, hday, hv2⟩ := List.mem_flatMap.mp hmem
  unfold genAvailDay at hv2
  simp only [] at hv2
  cases hfind : avails.find? (fun av => av.day_of_week ==
      (if luxonWeekday day == 7 then 0 else luxonWeekday day)) with
  | none => rw [hfind] at hv2; cases hv2
  | some av =>
    rw [hfind] at hv2
    obtain ⟨T, hveq, hs0, hlt, h1, h2⟩ := genAvailLoop_spec hv2
    exact ⟨T, hveq, h1, h2⟩

lemma length_insertByStart (x : BaseSlot) : ∀ l : List BaseSlot,
    (insertByStart x l).length = l.length + 1 := by
  intro l
  induction l with
  | nil => rfl
  | cons a l ih =>
    unfold insertByStart
    by_cases h : a.start_time < x.start_time
    · rw [if_pos h]
      simp [ih]
    · rw [if_neg h]
      simp

lemma length_sortByStart (l : List BaseSlot) : (sortByStart l).length = l.length := by
  unfold sortByStart
  induction l with
  | nil => rfl
  | cons a l ih =>
    rw [List.foldr_cons, length_insertByStart, ih, List.length_cons]

lemma lastIdAt_all_eq {rows : List PSlot} {r : PSlot} (hr : r ∈ rows) {T : Int}
    (hT : r.start_time.inst = T)
    (huniq : ∀ r2 ∈ rows, r2.start_time.inst = T → r2.id = r.id) :
    lastIdAt rows T = some r.id := by
  have hsome := lastIdAt_isSome_of_mem hr hT
  unfold lastIdAt at hsome ⊢
  rw [Option.isSome_map'] at hsome
  obtain ⟨y, hy⟩ := Option.isSome_iff_exists.mp hsome
  have hymem := List.mem_of_mem_getLast? hy
  rw [List.mem_filter] at hymem
  rw [hy]
  simp only [Option.map_some']
  rw [huniq y hymem.1 (beq_iff_eq.mp hymem.2)]

lemma genDirect_windows_wellformed {avails : List Availability} {p : GenParams}
    {w : Window} (hmem : w ∈ generateServiceSlotsDirectly avails p) :
    w.slot_ids = [SlotRef.virt w.start_time] ∧
    w.start_time = canonTS w.start_time.inst := by
  obtain ⟨day, av, T, -, hweq, -⟩ := genDirect_spec hmem
  rw [hweq]
  exact ⟨rfl, rfl⟩

/-! ## Claim theorems -/

/-- C2: the lead-time policies of the two algorithms diverge: with timezone
offset 0, step 15, nowWithLead at 10:07 local (instant 607) and a candidate
start at 10:10 (instant 610) on the same local day, the direct generator
accepts while the base-unit builder rounds 10:07 up to 10:15 and rejects;
the full pipelines diverge the same way (the generator emits the 10:10
window, the builder given the matching base slot emits nothing).  The
generator thus does not apply the builder's same-day rounding, contrary to
its own inline comment and to the specification. -/
theorem lead_policy_divergence :
    generatorLeadAccept 0 607 610 = true ∧ builderLeadAccept 0 15 607 610 = false ∧
    (⟨canonTS 610, canonTS 625, [SlotRef.virt (canonTS 610)]⟩ : Window)
      ∈ generateServiceSlotsDirectly [⟨4, ⟨10, 10⟩, ⟨11, 0⟩⟩]
        ⟨15, 0, 1439, 0, ⟨18, 0⟩, [], 0, 607⟩ ∧
    buildServiceWindowsFromBaseSlots
        ⟨[⟨SlotRef.real 1, 610, 625, true⟩], 15, 15, 607, ⟨18, 0⟩, 0, 0⟩ = [] := by
  decide

/-- C3 (counterexample): with two contiguous 15-minute base slots and a
requested duration of 20 minutes (not a multiple of the step), the builder
emits a window spanning 20 minutes, not needed * slotStepMinutes = 30. -/
theorem builder_duration_counterexample :
    buildServiceWindowsFromBaseSlots
        ⟨[⟨SlotRef.real 1, 600, 615, true⟩, ⟨SlotRef.real 2, 615, 630, true⟩],
          20, 15, 0, ⟨18, 0⟩, 0, 0⟩
      = [⟨canonTS 600, canonTS 620, [SlotRef.real 1, SlotRef.real 2]⟩] ∧
    (canonTS 620).inst - (canonTS 600).inst
      ≠ (((20 + 15 - 1) / 15 : Nat) * 15 : Nat) := by
  decide

/-- C3 (amended): every window emitted by either algorithm spans exactly the
requested service duration, including when durationMinutes is not a multiple
of slotStepMinutes; the base-unit builder never spans needed * step unless
that equals the duration. -/
theorem window_duration_equals_requested (P : BuildParams)
    (avails : List Availability) (p : GenParams) :
    (∀ w ∈ buildServiceWindowsFromBaseSlots P,
      w.end_time.inst - w.start_time.inst = (P.durationMinutes : Int)) ∧
    (∀ w ∈ generateServiceSlotsDirectly avails p,
      w.end_time.inst - w.start_time.inst = (p.duration : Int)) := by
  constructor
  · intro w hw
    obtain ⟨-, i, hwi, -⟩ := mem_buildServiceWindows hw
    obtain ⟨g0, rest, -, hst, hen, -⟩ := windowAt_some hwi
    rw [hst, hen]
    show g0.start_time + (P.durationMinutes : Int) - g0.start_time = _
    omega
  · intro w hw
    obtain ⟨day, av, T, -, hweq, -⟩ := genDirect_spec hw
    rw [hweq]
    show T + (p.duration : Int) - T = _
    omega

/-- C3 (witness): the concrete 20-minute window of the counterexample input
spans exactly the 20 requested minutes. -/
theorem window_duration_equals_requested_witness :
    (⟨canonTS 600, canonTS 620, [SlotRef.real 1, SlotRef.real 2]⟩ : Window).end_time.inst
      - (⟨canonTS 600, canonTS 620, [SlotRef.real 1, SlotRef.real 2]⟩ : Window).start_time.inst
      = ((20 : Nat) : Int) :=
  (window_duration_equals_requested
      ⟨[⟨SlotRef.real 1, 600, 615, true⟩, ⟨SlotRef.real 2, 615, 630, true⟩],
        20, 15, 0, ⟨18, 0⟩, 0, 0⟩ [] ⟨15, 0, 0, 0, ⟨18, 0⟩, [], 0, 0⟩).1
    ⟨canonTS 600, canonTS 620, [SlotRef.real 1, SlotRef.real 2]⟩ (by decide)

/-- C8: two timestamp strings denoting the same UTC instant but differing in
millisecond presence or offset notation normalize to a matching key: a
persisted row registered in the real-id map is found by the multi-variant
probe of any generated start string with the same instant, and the window is
assigned that row's id. -/
theorem instant_matching_tolerance (rows : List PSlot) (r : PSlot) (b : TSString)
    (hr : r ∈ rows) (hinst : r.start_time.inst = b.inst)
    (huniq : ∀ r2 ∈ rows, r2.start_time.inst = b.inst → r2.id = r.id) :
    lookupRealId (buildRealSlotIds rows) b = some r.id := by
  rw [lookupRealId_char]
  exact lastIdAt_all_eq hr hinst huniq

/-- C8 (witness): a row stored as "…+00:00" without milliseconds is matched
by the canonical "….000Z" probe of the same instant. -/
theorem instant_matching_tolerance_witness :
    lookupRealId (buildRealSlotIds [⟨5, none, ⟨600, false, false⟩, ⟨615, false, false⟩, true⟩])
      (canonTS 600) = some 5 :=
  instant_matching_tolerance
    [⟨5, none, ⟨600, false, false⟩, ⟨615, false, false⟩, true⟩]
    ⟨5, none, ⟨600, false, false⟩, ⟨615, false, false⟩, true⟩
    (canonTS 600) (by decide) (by decide) (by decide)

/-- C5: running the reconciliation step twice in sequence against the same
store with the same generated windows returns the same windows and the same
store the second time (no new rows inserted), and after the first run every
window's slot id is a real persisted id. -/
theorem reconciliation_idempotent (s : Store) (lo hi : Int) (sid : Option Nat)
    (ws : List Window)
    (hw : ∀ w ∈ ws, w.slot_ids = [SlotRef.virt w.start_time] ∧
      w.start_time = canonTS w.start_time.inst) :
    reconcileServiceWindows (reconcileServiceWindows s lo hi sid false ws).store
        lo hi sid false ws
      = reconcileServiceWindows s lo hi sid false ws ∧
    ∀ w ∈ (reconcileServiceWindows s lo hi sid false ws).windows,
      ∃ n, w.slot_ids = [SlotRef.real n] :=
  reconcile_idem_aux s lo hi sid ws hw

/-- C5 (witness): a second reconciliation run over the store produced by the
first run, with one generated window against an initially empty store,
returns the identical result. -/
theorem reconciliation_idempotent_witness :
    reconcileServiceWindows
        (reconcileServiceWindows ⟨[], 0⟩ 0 1439 (some 7) false
          [⟨canonTS 600, canonTS 660, [SlotRef.virt (canonTS 600)]⟩]).store
        0 1439 (some 7) false
        [⟨canonTS 600, canonTS 660, [SlotRef.virt (canonTS 600)]⟩]
      = reconcileServiceWindows ⟨[], 0⟩ 0 1439 (some 7) false
          [⟨canonTS 600, canonTS 660, [SlotRef.virt (canonTS 600)]⟩] :=
  (reconciliation_idempotent ⟨[], 0⟩ 0 1439 (some 7)
    [⟨canonTS 600, canonTS 660, [SlotRef.virt (canonTS 600)]⟩] (by decide)).1

/-- C4 (counterexample): when the batch insert fails (the duplicate-key case
included), the affected window's slot_ids is NOT rewritten with the winning
row's id: it keeps its synthetic virtual id, the store is unchanged and the
failure is only logged. -/
theorem insert_failure_keeps_virtual_ids :
    (reconcileServiceWindows ⟨[], 0⟩ 0 1439 (some 7) true
        [⟨canonTS 600, canonTS 660, [SlotRef.virt (canonTS 600)]⟩]).windows
      = [⟨canonTS 600, canonTS 660, [SlotRef.virt (canonTS 600)]⟩] ∧
    (reconcileServiceWindows ⟨[], 0⟩ 0 1439 (some 7) true
        [⟨canonTS 600, canonTS 660, [SlotRef.virt (canonTS 600)]⟩]).store
      = (⟨[], 0⟩ : Store) ∧
    (reconcileServiceWindows ⟨[], 0⟩ 0 1439 (some 7) true
        [⟨canonTS 600, canonTS 660, [SlotRef.virt (canonTS 600)]⟩]).insertErrorLogged
      = true := by
  decide

/-- C4 (amended): when the batch insert fails, reconciliation still returns a
result (the failure is logged, never surfaced): the store is unchanged, and
each window receives the id of an already-persisted row at its start instant
when one exists (via the real-id map or the pre-insert existence check) and
otherwise keeps its virtual slot id; no re-read after the failed insert
recovers a concurrently-inserted winning row. -/
theorem insert_failure_graceful_degradation (s : Store) (lo hi : Int)
    (sid : Option Nat) (ws : List Window)
    (hw : ∀ w ∈ ws, w.slot_ids = [SlotRef.virt w.start_time] ∧
      w.start_time = canonTS w.start_time.inst) :
    (reconcileServiceWindows s lo hi sid true ws).store = s ∧
    (reconcileServiceWindows s lo hi sid true ws).windows
      = ws.map (fun w => applyId w ((lastIdAt (availQ s lo hi) w.start_time.inst).or
          (lastIdAt s.rows w.start_time.inst))) := by
  have h := reconcile_char s lo hi sid true ws hw
  have hC : createdRows s sid true ws
      (fun w => lastIdAt (availQ s lo hi) w.start_time.inst) = [] := by
    unfold createdRows
    rw [if_pos rfl]
  rw [h, hC]
  constructor
  · simp
  · simp only []
    refine List.map_congr_left ?_
    intro w _
    rw [lastIdAt_nil, Option.none_or]

/-- C4 (witness): with one persisted row at the window's instant and a failing
insert, the window is resolved from the pre-existing row and the store is
unchanged. -/
theorem insert_failure_graceful_degradation_witness :
    (reconcileServiceWindows ⟨[⟨3, none, canonTS 600, canonTS 615, true⟩], 4⟩
        0 1439 (some 7) true
        [⟨canonTS 600, canonTS 660, [SlotRef.virt (canonTS 600)]⟩]).store
      = (⟨[⟨3, none, canonTS 600, canonTS 615, true⟩], 4⟩ : Store) ∧
    (reconcileServiceWindows ⟨[⟨3, none, canonTS 600, canonTS 615, true⟩], 4⟩
        0 1439 (some 7) true
        [⟨canonTS 600, canonTS 660, [SlotRef.virt (canonTS 600)]⟩]).windows
      = [⟨canonTS 600, canonTS 660, [SlotRef.virt (canonTS 600)]⟩].map
          (fun w => applyId w ((lastIdAt (availQ ⟨[⟨3, none, canonTS 600, canonTS 615, true⟩], 4⟩
              0 1439) w.start_time.inst).or
            (lastIdAt [⟨3, none, canonTS 600, canonTS 615, true⟩] w.start_time.inst))) :=
  insert_failure_graceful_degradation ⟨[⟨3, none, canonTS 600, canonTS 615, true⟩], 4⟩
    0 1439 (some 7) [⟨canonTS 600, canonTS 660, [SlotRef.virt (canonTS 600)]⟩] (by decide)

/-- C1 (counterexample): the direct generator, with the occupied set built
from the persisted is_available = false rows, accepts the 09:00-10:00 window
of 2026-01-27 (UTC offset 0) even though a persisted row marked unavailable
spans 09:30-09:45, inside the window: occupancy is only a start-instant key
check, not an interval check. -/
theorem window_overlaps_unavailable_range :
    (⟨canonTS 29491740, canonTS 29491800, [SlotRef.virt (canonTS 29491740)]⟩ : Window)
      ∈ generateServiceSlotsDirectly [⟨2, ⟨9, 0⟩, ⟨12, 0⟩⟩]
        ⟨60, 29491200, 29492639, 0, ⟨18, 0⟩,
          occupiedStartTimes ⟨[⟨1, none, canonTS 29491770, canonTS 29491785, false⟩], 2⟩
            29491200 29492639,
          0, 29490000⟩ ∧
    (⟨1, none, canonTS 29491770, canonTS 29491785, false⟩ : PSlot).is_available = false ∧
    (29491740 : Int) ≤ (canonTS 29491770).inst ∧
    (canonTS 29491785).inst ≤ (29491800 : Int) := by
  decide

/-- C1 (amended): what the two algorithms actually ensure: every window the
base-unit builder accepts covers only base slots with is_available = true
(the slots whose ids it carries), and every window the direct generator
accepts has a start instant whose canonical key is not in the occupied set;
neither algorithm excludes overlap with an unavailable range that does not
coincide with a covered unit or with the start key. -/
theorem availability_checks_as_implemented (P : BuildParams)
    (avails : List Availability) (p : GenParams) :
    (∀ w ∈ buildServiceWindowsFromBaseSlots P,
      ∃ group : List BaseSlot, w.slot_ids = group.map (fun s => s.id) ∧
        (∀ s ∈ group, s ∈ P.baseSlots) ∧ ∀ s ∈ group, s.is_available = true) ∧
    (∀ w ∈ generateServiceSlotsDirectly avails p,
      p.occupied.contains w.start_time = false) := by
  constructor
  · intro w hw
    obtain ⟨hstep, i, hwi, hbound⟩ := mem_buildServiceWindows hw
    obtain ⟨g0, rest, hg, -, -, hids, hav2, -⟩ := windowAt_some hwi
    refine ⟨g0 :: rest, hids, ?_, hav2⟩
    intro x hx
    have hx2 : x ∈ (sortByStart P.baseSlots).drop i :=
      List.mem_of_mem_take (by rw [hg]; exact hx)
    exact mem_sortByStart.mp (List.mem_of_mem_drop hx2)
  · intro w hw
    obtain ⟨day, av, T, -, hweq, -, -, -, -, -, -, hocc⟩ := genDirect_spec hw
    rw [hweq]
    exact hocc

/-- C1 (witness): the accepted 09:00 window of the counterexample scenario
has a start key outside the occupied set. -/
theorem availability_checks_as_implemented_witness :
    (occupiedStartTimes ⟨[⟨1, none, canonTS 29491770, canonTS 29491785, false⟩], 2⟩
        29491200 29492639).contains
      (⟨canonTS 29491740, canonTS 29491800, [SlotRef.virt (canonTS 29491740)]⟩
        : Window).start_time = false :=
  (availability_checks_as_implemented
      ⟨[], 15, 15, 0, ⟨18, 0⟩, 0, 0⟩ [⟨2, ⟨9, 0⟩, ⟨12, 0⟩⟩]
      ⟨60, 29491200, 29492639, 0, ⟨18, 0⟩,
        occupiedStartTimes ⟨[⟨1, none, canonTS 29491770, canonTS 29491785, false⟩], 2⟩
          29491200 29492639, 0, 29490000⟩).2
    ⟨canonTS 29491740, canonTS 29491800, [SlotRef.virt (canonTS 29491740)]⟩ (by decide)

/-- C6: every window the builder emits is composed of exactly
needed = ceil(durationMinutes / slotStepMinutes) covered base slots: its
slot_ids are their ids in ascending start order, every covered slot is
available, consecutive covered starts differ by exactly slotStepMinutes (a
timezone conversion leaves instant differences unchanged), and an empty
input or needed exceeding the input length yields no windows. -/
theorem builder_window_composition (P : BuildParams)
    (hd : 0 < P.durationMinutes) (hs : 0 < P.slotStepMinutes) :
    (∀ w ∈ buildServiceWindowsFromBaseSlots P,
      ∃ group : List BaseSlot,
        group.length = (P.durationMinutes + P.slotStepMinutes - 1) / P.slotStepMinutes ∧
        w.slot_ids = group.map (fun s => s.id) ∧
        (∀ s ∈ group, s ∈ P.baseSlots) ∧
        (∀ s ∈ group, s.is_available = true) ∧
        List.Chain' (fun a b => b.start_time - a.start_time
          = (P.slotStepMinutes : Int)) group ∧
        List.Chain' (fun a b => a.start_time < b.start_time) group) ∧
    ((P.baseSlots = [] ∨
        P.baseSlots.length < (P.durationMinutes + P.slotStepMinutes - 1) / P.slotStepMinutes) →
      buildServiceWindowsFromBaseSlots P = []) := by
  constructor
  · intro w hw
    obtain ⟨hstep, i, hwi, hbound⟩ := mem_buildServiceWindows hw
    obtain ⟨g0, rest, hg, hst, hen, hids, hav2, hcons, -, -⟩ := windowAt_some hwi
    refine ⟨g0 :: rest, ?_, hids, ?_, hav2, consecutiveOk_chain hcons, ?_⟩
    · have hlg := congrArg List.length hg
      rw [List.length_take, List.length_drop] at hlg
      omega
    · intro s hs2
      have hs3 : s ∈ (sortByStart P.baseSlots).drop i :=
        List.mem_of_mem_take (by rw [hg]; exact hs2)
      exact mem_sortByStart.mp (List.mem_of_mem_drop hs3)
    · refine (consecutiveOk_chain hcons).imp ?_
      intro a b hab
      omega
  · intro hsmall
    unfold buildServiceWindowsFromBaseSlots
    rw [if_neg (by omega : ¬ P.slotStepMinutes = 0)]
    simp only []
    by_cases hlen0 : (sortByStart P.baseSlots).length = 0
    · rw [if_pos hlen0]
    · rw [if_neg hlen0]
      rw [show (sortByStart P.baseSlots).length + 1
          - (P.durationMinutes + P.slotStepMinutes - 1) / P.slotStepMinutes = 0 from ?_]
      · rfl
      · rw [length_sortByStart]
        rcases hsmall with h | h
        · exact absurd (by rw [length_sortByStart, h]; rfl) hlen0
        · omega

/-- C6 (witness): needed exceeding the list length yields no windows (one
base slot, duration 60, step 15). -/
theorem builder_window_composition_witness :
    buildServiceWindowsFromBaseSlots
        ⟨[⟨SlotRef.real 1, 600, 615, true⟩], 60, 15, 0, ⟨18, 0⟩, 0, 0⟩ = [] :=
  (builder_window_composition
      ⟨[⟨SlotRef.real 1, 600, 615, true⟩], 60, 15, 0, ⟨18, 0⟩, 0, 0⟩
      (by decide) (by decide)).2 (Or.inr (by decide))

/-- C7: no emitted window of either algorithm ends after the closing cutoff
on its local start calendar day: end_time, taken as a local instant, is at
most closingTime on start_time's local day (for the generator, provided the
availability rules carry well-formed HH:mm end times). -/
theorem closing_bound (P : BuildParams) (avails : List Availability) (p : GenParams)
    (hav : ∀ av ∈ avails, av.end_time.mins ≤ 1440) :
    (∀ w ∈ buildServiceWindowsFromBaseSlots P,
      w.end_time.inst ≤ localDayStart P.off w.start_time.inst + P.closingTime.mins) ∧
    (∀ w ∈ generateServiceSlotsDirectly avails p,
      w.end_time.inst ≤ localDayStart p.off w.start_time.inst + p.closing.mins) := by
  constructor
  · intro w hw
    obtain ⟨-, i, hwi, -⟩ := mem_buildServiceWindows hw
    obtain ⟨g0, rest, -, hst, hen, -, -, -, -, hclose⟩ := windowAt_some hwi
    rw [hst, hen]
    exact hclose
  · intro w hw
    obtain ⟨day, av, T, havmem, hweq, hds, hde, hcl, -⟩ := genDirect_spec hw
    rw [hweq]
    show T + (p.duration : Int) ≤ localDayStart p.off T + p.closing.mins
    have hs0 : (0 : Int) ≤ av.start_time.mins := by
      unfold HM.mins
      omega
    have hday : localDay p.off T = day := by
      refine localDay_eq_of_bounds day (by omega) ?_
      have := hav av havmem
      omega
    unfold localDayStart
    rw [hday]
    omega

/-- C7 (witness): the four-unit scenario window 11:00-12:00 of 2026-01-27
(UTC) ends before the 18:00 cutoff of its local day. -/
theorem closing_bound_witness :
    (⟨canonTS 29491860, canonTS 29491920,
        [SlotRef.real 1, SlotRef.real 2, SlotRef.real 3, SlotRef.real 4]⟩
      : Window).end_time.inst
      ≤ localDayStart 0 (⟨canonTS 29491860, canonTS 29491920,
          [SlotRef.real 1, SlotRef.real 2, SlotRef.real 3, SlotRef.real 4]⟩
        : Window).start_time.inst + (⟨18, 0⟩ : HM).mins :=
  (closing_bound
      ⟨[⟨SlotRef.real 1, 29491860, 29491875, true⟩, ⟨SlotRef.real 2, 29491875, 29491890, true⟩,
        ⟨SlotRef.real 3, 29491890, 29491905, true⟩, ⟨SlotRef.real 4, 29491905, 29491920, true⟩],
        60, 15, 29491740, ⟨18, 0⟩, 0, 0⟩
      [] ⟨15, 0, 0, 0, ⟨18, 0⟩, [], 0, 0⟩ (by intro av h; cases h)).1
    ⟨canonTS 29491860, canonTS 29491920,
      [SlotRef.real 1, SlotRef.real 2, SlotRef.real 3, SlotRef.real 4]⟩ (by decide)

/-- C9: the builder never mutates its baseSlots argument: the spread on line
29 copies the caller's array before the in-place sort, so after the call the
caller's array holds the same elements in the original order with every
field unchanged, while the builder works on the sorted copy. -/
theorem builder_does_not_mutate_input (h : SlotHeap) (a : Nat) (ha : a < h.length) :
    hget (buildSortStep h a).1 a = hget h a ∧
    (buildSortStep h a).2 = sortByStart (hget h a) := by
  unfold buildSortStep halloc
  simp only []
  have hv : hget (h ++ [hget h a]) h.length = hget h a := by
    unfold hget
    rw [List.getD_eq_getElem?_getD, List.getElem?_append_right (le_refl h.length)]
    simp
  have hst : hset (h ++ [hget h a]) h.length
      (sortByStart (hget (h ++ [hget h a]) h.length))
      = h ++ [sortByStart (hget h a)] := by
    rw [hv]
    unfold hset
    rw [List.set_append_right _ _ (le_refl h.length)]
    simp
  rw [hst]
  constructor
  · unfold hget
    rw [List.getD_eq_getElem?_getD, List.getElem?_append_left ha,
      ← List.getD_eq_getElem?_getD]
  · unfold hget
    rw [List.getD_eq_getElem?_getD, List.getElem?_append_right (le_refl h.length)]
    simp

/-- C9 (witness): on a two-array heap, the builder's sort step leaves the
argument array at address 0 unchanged while producing the sorted copy. -/
theorem builder_does_not_mutate_input_witness :
    hget (buildSortStep [[⟨SlotRef.real 2, 615, 630, true⟩, ⟨SlotRef.real 1, 600, 615, true⟩]] 0).1 0
      = hget [[⟨SlotRef.real 2, 615, 630, true⟩, ⟨SlotRef.real 1, 600, 615, true⟩]] 0 :=
  (builder_does_not_mutate_input
    [[⟨SlotRef.real 2, 615, 630, true⟩, ⟨SlotRef.real 1, 600, 615, true⟩]] 0 (by decide)).1

/-- C10: every slot produced by the availability-generation fallback of
getAvailableSlots is available, carries the virtual id of its own UTC start
string, spans exactly 15 minutes (the fixed step; no service duration is
involved), and starts within the requested range; and the fallback is taken
exactly when the persisted-slot query returns nothing. -/
theorem fallback_slots_spec (s : Store) (avails : List Availability)
    (p : GetSlotsParams) :
    (∀ v ∈ generateSlotsFromAvailabilities avails p,
      v.is_available = true ∧ v.id = SlotRef.virt v.start_time ∧
      v.end_time.inst - v.start_time.inst = 15 ∧
      p.fromT ≤ v.start_time.inst ∧ v.start_time.inst ≤ p.toT) ∧
    (availableSlotsQuery s p = [] →
      getAvailableSlots s avails p = generateSlotsFromAvailabilities avails p) ∧
    (availableSlotsQuery s p ≠ [] →
      getAvailableSlots s avails p = availableSlotsQuery s p) := by
  refine ⟨?_, ?_, ?_⟩
  · intro v hv
    obtain ⟨T, hveq, h1, h2⟩ := genFromAvail_spec hv
    rw [hveq]
    refine ⟨rfl, rfl, ?_, h1, h2⟩
    show T + 15 - T = 15
    omega
  · intro hnil
    unfold getAvailableSlots
    simp only []
    rw [if_neg (by rw [hnil]; simp)]
  · intro hne
    unfold getAvailableSlots
    simp only []
    rw [if_pos (by
      cases hq : availableSlotsQuery s p with
      | nil => exact absurd hq hne
      | cons x l => simp)]

/-- C10 (witness): with an empty store, getAvailableSlots falls back to
availability-based generation. -/
theorem fallback_slots_spec_witness :
    getAvailableSlots ⟨[], 0⟩ [⟨2, ⟨9, 0⟩, ⟨10, 0⟩⟩] ⟨none, 29491200, 29492639⟩
      = generateSlotsFromAvailabilities [⟨2, ⟨9, 0⟩, ⟨10, 0⟩⟩] ⟨none, 29491200, 29492639⟩ :=
  (fallback_slots_spec ⟨[], 0⟩ [⟨2, ⟨9, 0⟩, ⟨10, 0⟩⟩] ⟨none, 29491200, 29492639⟩).2.1
    (by decide)
